import Mathlib

/-! # aligned_memory: an aligned allocator layered over malloc/free

A shallow embedding of `src/main.cpp` (namespace `aligned_memory`).

Modelling conventions.

* `P` is `sizeof(void *)`, the width of a pointer in bytes.  `std::size_t` has the
  same width, so a `size_t` takes the values `0 .. 256 ^ P - 1` and every `size_t`
  operation of the source is reduced modulo `SIZE_MOD P = 256 ^ P` (unsigned
  arithmetic is modular in C++).  On the platform of the test-suite `P = 8`.
* An `assert` that fails aborts the call: the functions return `Option`, and `none`
  is the failed assertion.
* Addresses are natural numbers and pointer arithmetic is exact (leaving the
  address space is undefined behaviour in C++, it is not a wrap-around).  `nullptr`
  is address `0`.
* Memory is byte addressed.  A pointer is stored in `P` consecutive bytes, least
  significant byte first.
* `malloc` and `free` are external: `malloc` is an arbitrary function of the current
  state and the requested size, and every call made to the underlying allocator is
  appended to a log kept in the state.
-/

namespace aligned_memory

/-! ## Machine arithmetic on `std::size_t` -/

/-- The number of values of a `std::size_t` when `sizeof(void *) = P`. -/
def SIZE_MOD (P : Nat) : Nat := 256 ^ P

/-- Addition of two `std::size_t`. -/
def size_add (P x y : Nat) : Nat := (x + y) % SIZE_MOD P

/-- Subtraction of two `std::size_t` (wraps below zero). -/
def size_sub (P x y : Nat) : Nat := (x + SIZE_MOD P - y % SIZE_MOD P) % SIZE_MOD P

/-- Multiplication of two `std::size_t`. -/
def size_mul (P x y : Nat) : Nat := (x * y) % SIZE_MOD P

/-! ## The sizing functions -/

/-- Source: `get_chunks_count`, main.cpp lines 7-10.
`assert(alignment > 0); return size / alignment + bool(size % alignment);` -/
def get_chunks_count (P size alignment : Nat) : Option Nat :=
  if alignment > 0 then
    some (size_add P (size / alignment) (if size % alignment ≠ 0 then 1 else 0))
  else none

/-- Source: `need_alloc`, main.cpp lines 12-17. -/
def need_alloc (P size alignment : Nat) : Option Nat :=
  if alignment > 0 then
    match get_chunks_count P size alignment, get_chunks_count P P alignment with
    | some c1, some c2 =>
      let chunks_count := size_add P c1 c2
      some (size_sub P (size_add P (size_mul P alignment chunks_count) alignment) 1)
    | _, _ => none
  else none

/-- Source: `get_aligned_shift`, main.cpp lines 19-28.  `real` is the address held by
the pointer argument. -/
def get_aligned_shift (P real alignment : Nat) : Option Nat :=
  if alignment > 0 then
    let rest := real % alignment
    let has := if rest > 0 then size_sub P alignment rest else 0
    if has < P then
      match get_chunks_count P P alignment with
      | some c => some (size_add P has (size_mul P alignment c))
      | none => none
    else
      some has
  else none

/-! ## Memory and the underlying allocator -/

/-- Byte-addressed memory: the byte stored at each address. -/
abbrev Memory := Nat → Nat

/-- A call made to the underlying allocator. -/
inductive Call where
  | malloc (size : Nat)
  | free (ptr : Nat)

/-- The state the program runs in: the memory and the log of the calls made to the
underlying allocator, oldest first. -/
structure State where
  mem : Memory
  calls : List Call

/-- Write the pointer `value` into the `P` bytes starting at `addr`. -/
def store_ptr (P : Nat) (m : Memory) (addr value : Nat) : Memory :=
  fun x => if addr ≤ x ∧ x < addr + P then value / 256 ^ (x - addr) % 256 else m x

/-- The number held by the `n` bytes starting at `addr`. -/
def load_bytes (m : Memory) (addr : Nat) : Nat → Nat
  | 0 => 0
  | n + 1 => load_bytes m addr n + m (addr + n) % 256 * 256 ^ n

/-- Read the pointer stored in the `P` bytes starting at `addr`. -/
def load_ptr (P : Nat) (m : Memory) (addr : Nat) : Nat := load_bytes m addr P

/-- Source: `align`, main.cpp lines 30-35.  `chunk - 1` on a `void **` is the address
`P` bytes below `chunk`; `chunk` is never less than `P` (`align_slot_no_underflow`), so
the subtraction on naturals is the exact one. -/
def align (P : Nat) (s : State) (real alignment : Nat) : Option (Nat × State) :=
  match get_aligned_shift P real alignment with
  | some shift =>
    let chunk := real + shift
    some (chunk, ⟨store_ptr P s.mem (chunk - P) real, s.calls⟩)
  | none => none

/-- Source: `aligned_malloc`, main.cpp lines 37-43.  `malloc` is the underlying
allocator: the address it returns for a request made in a given state. -/
def aligned_malloc (P : Nat) (malloc : State → Nat → Nat) (s : State)
    (size alignment : Nat) : Option (Nat × State) :=
  match need_alloc P size alignment with
  | some n =>
    let real := malloc s n
    let s1 : State := ⟨s.mem, s.calls ++ [Call.malloc n]⟩
    if real = 0 then some (real, s1)
    else align P s1 real alignment
  | none => none

/-- Source: `get_real`, main.cpp lines 45-48. -/
def get_real (P : Nat) (s : State) (chunk : Nat) : Option Nat :=
  if chunk ≠ 0 then some (load_ptr P s.mem (chunk - P)) else none

/-- Source: `aligned_free`, main.cpp lines 50-52. -/
def aligned_free (P : Nat) (s : State) (chunk : Nat) : Option State :=
  match (if chunk = 0 then some chunk else get_real P s chunk) with
  | some p => some ⟨s.mem, s.calls ++ [Call.free p]⟩
  | none => none

/-! ## The same formulas over the unbounded naturals

The value each `size_t` expression of the source has when nothing wraps around.  They
are used to say when a computation stays inside `std::size_t`. -/

/-- The value of `size / alignment + bool(size % alignment)` without wrap-around. -/
def chunks_count_exact (size alignment : Nat) : Nat :=
  size / alignment + (if size % alignment ≠ 0 then 1 else 0)

/-- The value of `need_alloc(size, alignment)` without wrap-around. -/
def need_alloc_exact (P size alignment : Nat) : Nat :=
  alignment * (chunks_count_exact size alignment + chunks_count_exact P alignment)
    + alignment - 1

/-- The value of `has` in `get_aligned_shift`, `rest > 0 ? alignment - rest : 0` with
`rest = real % alignment`: the distance from `real` up to the next multiple of
`alignment`. -/
def has_exact (real alignment : Nat) : Nat :=
  if real % alignment > 0 then alignment - real % alignment else 0

/-- The value of `get_aligned_shift(real, alignment)` without wrap-around. -/
def get_aligned_shift_exact (P real alignment : Nat) : Nat :=
  if has_exact real alignment < P then
    has_exact real alignment + alignment * chunks_count_exact P alignment
  else has_exact real alignment

/-- The steps of `need_alloc(size, alignment)` none of which wraps around: each
`size_t` operation of lines 9 and 14-16, applied to the values the machine holds, gives
the result it has over the naturals, and the final `- 1` does not go below zero. -/
def need_alloc_no_wrap (P size alignment : Nat) : Prop :=
  let b1 := if size % alignment ≠ 0 then 1 else 0
  let b2 := if P % alignment ≠ 0 then 1 else 0
  let c1 := size_add P (size / alignment) b1
  let c2 := size_add P (P / alignment) b2
  let chunks_count := size_add P c1 c2
  let product := size_mul P alignment chunks_count
  let sum := size_add P product alignment
  c1 = size / alignment + b1 ∧ c2 = P / alignment + b2 ∧ chunks_count = c1 + c2 ∧
    product = alignment * chunks_count ∧ sum = product + alignment ∧ 1 ≤ sum

/-- The state in which a call of `aligned_malloc` ends, whether it returns or is
aborted by a failed assertion: the assertion of `need_alloc` fails while the argument
of `malloc` is evaluated, that of `get_aligned_shift` after `malloc` has answered and
before `align` writes. -/
def aligned_malloc_end_state (P : Nat) (malloc : State → Nat → Nat) (s : State)
    (size alignment : Nat) : State :=
  match need_alloc P size alignment with
  | some n =>
    let real := malloc s n
    let s1 : State := ⟨s.mem, s.calls ++ [Call.malloc n]⟩
    if real = 0 then s1
    else
      match align P s1 real alignment with
      | some (_, s2) => s2
      | none => s1
  | none => s

/-! ## Facts about the exact formulas -/

theorem SIZE_MOD_pos (P : Nat) : 0 < SIZE_MOD P := by
  unfold SIZE_MOD
  positivity

theorem ptr_lt_SIZE_MOD (P : Nat) : P < SIZE_MOD P := by
  unfold SIZE_MOD
  exact Nat.lt_pow_self (by decide) P

/-- The exact chunk count is the ceiling of `size / alignment`: it covers `size` and
overshoots by less than one alignment unit. -/
theorem chunks_count_exact_bounds (size alignment : Nat) (ha : 0 < alignment) :
    size ≤ alignment * chunks_count_exact size alignment ∧
      alignment * chunks_count_exact size alignment < size + alignment := by
  have hdm := Nat.div_add_mod size alignment
  have hlt := Nat.mod_lt size ha
  unfold chunks_count_exact
  by_cases h0 : size % alignment = 0
  · simp only [h0, ne_eq, not_true_eq_false, if_false, Nat.add_zero]
    omega
  · simp only [h0, ne_eq, not_false_eq_true, if_true, Nat.mul_add, Nat.mul_one]
    omega

theorem chunks_count_exact_le (size alignment : Nat) (ha : 0 < alignment) :
    chunks_count_exact size alignment ≤ size := by
  have h := (chunks_count_exact_bounds size alignment ha).2
  by_contra hc
  have h2 : alignment * (size + 1) ≤ alignment * chunks_count_exact size alignment :=
    Nat.mul_le_mul_left _ (by omega)
  have h3 : 1 * (size + 1) ≤ alignment * (size + 1) := Nat.mul_le_mul_right _ ha
  have h4 : alignment * (size + 1) = alignment * size + alignment := by ring
  have h5 : 1 * size ≤ alignment * size := Nat.mul_le_mul_right _ ha
  omega

theorem has_exact_lt (real alignment : Nat) (ha : 0 < alignment) :
    has_exact real alignment < alignment := by
  have hlt := Nat.mod_lt real ha
  unfold has_exact
  split <;> omega

theorem has_exact_aligned (real alignment : Nat) (ha : 0 < alignment) :
    (real + has_exact real alignment) % alignment = 0 := by
  have hlt := Nat.mod_lt real ha
  have hdm := Nat.div_add_mod real alignment
  unfold has_exact
  split
  · have : real + (alignment - real % alignment) = alignment * (real / alignment + 1) := by
      rw [Nat.mul_add, Nat.mul_one]; omega
    rw [this]
    exact Nat.mul_mod_right _ _
  · have h0 : real % alignment = 0 := by omega
    simpa using h0

theorem get_aligned_shift_exact_eq (P real alignment : Nat) :
    get_aligned_shift_exact P real alignment =
      if has_exact real alignment < P then
        has_exact real alignment + alignment * chunks_count_exact P alignment
      else has_exact real alignment := rfl

/-! ## When the machine arithmetic agrees with the exact formulas -/

theorem size_add_eq (P x y : Nat) (h : x + y < SIZE_MOD P) : size_add P x y = x + y := by
  unfold size_add
  exact Nat.mod_eq_of_lt h

theorem size_mul_eq (P x y : Nat) (h : x * y < SIZE_MOD P) : size_mul P x y = x * y := by
  unfold size_mul
  exact Nat.mod_eq_of_lt h

theorem size_sub_eq (P x y : Nat) (hyx : y ≤ x) (hx : x < SIZE_MOD P) :
    size_sub P x y = x - y := by
  unfold size_sub
  rw [Nat.mod_eq_of_lt (show y < SIZE_MOD P by omega)]
  have h : x + SIZE_MOD P - y = (x - y) + SIZE_MOD P := by omega
  rw [h, Nat.add_mod_right]
  exact Nat.mod_eq_of_lt (by omega)

/-- Subtracting one from a sum that was reduced modulo `SIZE_MOD P` gives the exact
predecessor as soon as that predecessor is a `size_t`. -/
theorem size_sub_one_of_add (P x y : Nat) (hP : 0 < P) (h1 : 1 ≤ x + y)
    (h : x + y - 1 < SIZE_MOD P) : size_sub P (size_add P x y) 1 = x + y - 1 := by
  have hM : 1 < SIZE_MOD P := by
    have := ptr_lt_SIZE_MOD P
    omega
  by_cases hlt : x + y < SIZE_MOD P
  · rw [size_add_eq P x y hlt]
    exact size_sub_eq P (x + y) 1 h1 hlt
  · have hxy : x + y = SIZE_MOD P := by omega
    unfold size_add size_sub
    rw [hxy, Nat.mod_self, Nat.mod_eq_of_lt hM, Nat.zero_add]
    exact Nat.mod_eq_of_lt (by omega)

theorem get_chunks_count_eq_exact (P size alignment : Nat) (ha : 0 < alignment)
    (hs : size < SIZE_MOD P) :
    get_chunks_count P size alignment = some (chunks_count_exact size alignment) := by
  have hle := chunks_count_exact_le size alignment ha
  unfold get_chunks_count
  rw [if_pos ha, size_add_eq]
  · rfl
  · unfold chunks_count_exact at hle
    omega

theorem get_aligned_shift_eq_exact (P real alignment : Nat) (ha : 0 < alignment)
    (haM : alignment < SIZE_MOD P)
    (hfit : get_aligned_shift_exact P real alignment < SIZE_MOD P) :
    get_aligned_shift P real alignment = some (get_aligned_shift_exact P real alignment) := by
  have hlt := Nat.mod_lt real ha
  have hhas : (if real % alignment > 0 then size_sub P alignment (real % alignment) else 0)
      = has_exact real alignment := by
    unfold has_exact
    split
    · exact size_sub_eq P alignment (real % alignment) (by omega) haM
    · rfl
  rw [get_aligned_shift_exact_eq] at hfit ⊢
  unfold get_aligned_shift
  simp only [if_pos ha, hhas]
  by_cases hb : has_exact real alignment < P
  · simp only [if_pos hb] at hfit ⊢
    rw [get_chunks_count_eq_exact P P alignment ha (ptr_lt_SIZE_MOD P)]
    simp only
    rw [size_mul_eq P _ _ (by omega), size_add_eq P _ _ hfit]
  · simp only [if_neg hb]

theorem need_alloc_exact_eq (P size alignment : Nat) (ha : 0 < alignment) :
    need_alloc_exact P size alignment + 1 =
      alignment * chunks_count_exact size alignment
        + alignment * chunks_count_exact P alignment + alignment := by
  unfold need_alloc_exact
  rw [Nat.mul_add]
  omega

theorem need_alloc_eq_exact (P size alignment : Nat) (ha : 0 < alignment)
    (haM : alignment < SIZE_MOD P) (hs : size < SIZE_MOD P)
    (hfit : need_alloc_exact P size alignment < SIZE_MOD P) :
    need_alloc P size alignment = some (need_alloc_exact P size alignment) := by
  have hsum := need_alloc_exact_eq P size alignment ha
  have hPM := ptr_lt_SIZE_MOD P
  have hP : 0 < P := by
    rcases Nat.eq_zero_or_pos P with h0 | h0
    · subst h0
      have : SIZE_MOD 0 = 1 := rfl
      omega
    · exact h0
  have hcc : chunks_count_exact size alignment + chunks_count_exact P alignment
      ≤ alignment * (chunks_count_exact size alignment + chunks_count_exact P alignment) :=
    Nat.le_mul_of_pos_left _ ha
  have hmul := Nat.mul_add alignment (chunks_count_exact size alignment)
    (chunks_count_exact P alignment)
  have h1 : chunks_count_exact size alignment + chunks_count_exact P alignment
      < SIZE_MOD P := by omega
  have h2 : alignment * (chunks_count_exact size alignment + chunks_count_exact P alignment)
      < SIZE_MOD P := by omega
  unfold need_alloc
  rw [if_pos ha, get_chunks_count_eq_exact P size alignment ha hs,
    get_chunks_count_eq_exact P P alignment ha hPM]
  simp only
  rw [size_add_eq P _ _ h1, size_mul_eq P _ _ h2,
    size_sub_one_of_add P _ _ hP (by omega) (by omega)]
  rfl

theorem eight_mul_lt_SIZE_MOD (P : Nat) : 8 * P < SIZE_MOD P := by
  unfold SIZE_MOD
  induction P with
  | zero => decide
  | succ n ih =>
    have h1 : 0 < 256 ^ n := by positivity
    rw [Nat.pow_succ]
    omega

theorem three_mul_lt_SIZE_MOD (P : Nat) : 3 * P < SIZE_MOD P := by
  have := eight_mul_lt_SIZE_MOD P
  omega

/-- The push-forward `alignment * get_chunks_count(sizeof(void *), alignment)` never
wraps: it is below `sizeof(void *) + alignment`, and it is `alignment` itself once
`alignment ≥ sizeof(void *)`. -/
theorem mul_chunks_ptr_lt (P alignment : Nat) (ha : 0 < alignment)
    (haM : alignment < SIZE_MOD P) :
    alignment * chunks_count_exact P alignment < SIZE_MOD P := by
  have hb := chunks_count_exact_bounds P alignment ha
  have h3 := three_mul_lt_SIZE_MOD P
  by_cases hPa : P ≤ alignment
  · have hc : chunks_count_exact P alignment < 2 := by
      apply Nat.lt_of_mul_lt_mul_left (a := alignment)
      omega
    have : alignment * chunks_count_exact P alignment ≤ alignment * 1 :=
      Nat.mul_le_mul_left _ (by omega)
    omega
  · omega

/-! ## Storing and loading a pointer -/

theorem load_bytes_store_ptr (P : Nat) (m : Memory) (addr value : Nat) :
    ∀ n, n ≤ P → load_bytes (store_ptr P m addr value) addr n = value % 256 ^ n := by
  intro n
  induction n with
  | zero => intro _; simp [load_bytes, Nat.mod_one]
  | succ k ih =>
    intro hk
    have hbyte : store_ptr P m addr value (addr + k) = value / 256 ^ k % 256 := by
      unfold store_ptr
      rw [if_pos ⟨by omega, by omega⟩, Nat.add_sub_cancel_left]
    rw [load_bytes, ih (by omega), hbyte, Nat.mod_mod, Nat.mod_pow_succ, Nat.mul_comm]

/-- A pointer written by `store_ptr` is read back by `load_ptr`. -/
theorem load_ptr_store_ptr (P : Nat) (m : Memory) (addr value : Nat)
    (hv : value < SIZE_MOD P) : load_ptr P (store_ptr P m addr value) addr = value := by
  unfold load_ptr
  rw [load_bytes_store_ptr P m addr value P (Nat.le_refl P)]
  exact Nat.mod_eq_of_lt hv

/-- The shift is total on positive alignments. -/
theorem get_aligned_shift_isSome (P real alignment : Nat) (ha : 0 < alignment) :
    ∃ shift, get_aligned_shift P real alignment = some shift := by
  unfold get_aligned_shift get_chunks_count
  simp only [if_pos ha]
  split <;> split <;> exact ⟨_, rfl⟩

/-- The address `align` returns is never null. -/
theorem align_result_ne_zero (P real alignment shift : Nat) (ha : 0 < alignment)
    (haM : alignment < SIZE_MOD P)
    (hshift : get_aligned_shift P real alignment = some shift) : real + shift ≠ 0 := by
  intro h0
  have hr : real = 0 := by omega
  subst hr
  have hhas : has_exact 0 alignment = 0 := by simp [has_exact]
  have hP : 0 < P := by
    rcases Nat.eq_zero_or_pos P with h | h
    · subst h
      have : SIZE_MOD 0 = 1 := rfl
      omega
    · exact h
  have hex : get_aligned_shift_exact P 0 alignment
      = alignment * chunks_count_exact P alignment := by
    rw [get_aligned_shift_exact_eq, hhas, if_pos hP, Nat.zero_add]
  have hlt := mul_chunks_ptr_lt P alignment ha haM
  have hb := chunks_count_exact_bounds P alignment ha
  rw [get_aligned_shift_eq_exact P 0 alignment ha haM (by omega)] at hshift
  injection hshift with hs
  omega

/-! ## Exact bounds on the shift and on the requested size -/

theorem get_aligned_shift_exact_aligned (P real alignment : Nat) (ha : 0 < alignment) :
    (real + get_aligned_shift_exact P real alignment) % alignment = 0 := by
  have h := has_exact_aligned real alignment ha
  rw [get_aligned_shift_exact_eq]
  split
  · rw [← Nat.add_assoc, Nat.add_mul_mod_self_left]
    exact h
  · exact h

theorem get_aligned_shift_exact_ge (P real alignment : Nat) (ha : 0 < alignment) :
    P ≤ get_aligned_shift_exact P real alignment := by
  have hb := chunks_count_exact_bounds P alignment ha
  rw [get_aligned_shift_exact_eq]
  split <;> omega

theorem get_aligned_shift_exact_le (P real alignment : Nat) (ha : 0 < alignment) :
    get_aligned_shift_exact P real alignment + 1
      ≤ alignment * chunks_count_exact P alignment + alignment := by
  have hb := chunks_count_exact_bounds P alignment ha
  have hh := has_exact_lt real alignment ha
  rw [get_aligned_shift_exact_eq]
  split <;> omega

/-- What `align` does once the shift is known. -/
theorem align_of_shift (P : Nat) (s : State) (real alignment shift : Nat)
    (hshift : get_aligned_shift P real alignment = some shift) :
    align P s real alignment =
      some (real + shift, ⟨store_ptr P s.mem (real + shift - P) real, s.calls⟩) := by
  unfold align
  rw [hshift]

/-- The requested size is total on positive alignments. -/
theorem need_alloc_isSome (P size alignment : Nat) (ha : 0 < alignment) :
    ∃ n, need_alloc P size alignment = some n := by
  unfold need_alloc get_chunks_count
  simp only [if_pos ha]
  exact ⟨_, rfl⟩

/-- What `aligned_malloc` does once the request and the shift are known. -/
theorem aligned_malloc_of_shift (P : Nat) (malloc : State → Nat → Nat) (s : State)
    (size alignment n shift : Nat) (hn : need_alloc P size alignment = some n)
    (hraw : malloc s n ≠ 0)
    (hshift : get_aligned_shift P (malloc s n) alignment = some shift) :
    aligned_malloc P malloc s size alignment =
      some (malloc s n + shift,
        ⟨store_ptr P s.mem (malloc s n + shift - P) (malloc s n),
          s.calls ++ [Call.malloc n]⟩) := by
  unfold aligned_malloc
  rw [hn]
  simp only [if_neg hraw]
  exact align_of_shift P _ (malloc s n) alignment shift hshift

theorem mod_eq_sub_mul (x M k : Nat) (h1 : k * M ≤ x) (h2 : x < (k + 1) * M) :
    x % M = x - k * M := by
  have hx : x = (x - k * M) + k * M := by omega
  have hlt : x - k * M < M := by
    rw [Nat.add_mul, Nat.one_mul] at h2
    omega
  conv_lhs => rw [hx]
  rw [Nat.add_mul_mod_self_right]
  exact Nat.mod_eq_of_lt hlt

/-- The shift wraps around only when the alignment is within `sizeof(void *)` of the
top of `std::size_t` and `real` is less than `sizeof(void *)` below a multiple of it. -/
theorem shift_wraps_only_at_top (P real alignment : Nat) (ha : 0 < alignment)
    (haM : alignment < SIZE_MOD P)
    (hwrap : ¬ get_aligned_shift_exact P real alignment < SIZE_MOD P) :
    has_exact real alignment < P ∧ SIZE_MOD P < alignment + P := by
  have hh := has_exact_lt real alignment ha
  have hb := chunks_count_exact_bounds P alignment ha
  have h3 := three_mul_lt_SIZE_MOD P
  rw [get_aligned_shift_exact_eq] at hwrap
  by_cases hb1 : has_exact real alignment < P
  · rw [if_pos hb1] at hwrap
    refine ⟨hb1, ?_⟩
    by_cases hPa : P ≤ alignment
    · have hc : chunks_count_exact P alignment < 2 := by
        apply Nat.lt_of_mul_lt_mul_left (a := alignment)
        omega
      have : alignment * chunks_count_exact P alignment ≤ alignment * 1 :=
        Nat.mul_le_mul_left _ (by omega)
      omega
    · omega
  · rw [if_neg hb1] at hwrap
    omega

/-- For an alignment within `sizeof(void *)` of the top of `std::size_t` the request
computed by `need_alloc` is within `4 * sizeof(void *)` of the top as well. -/
theorem need_alloc_at_top (P size alignment n : Nat) (haM : alignment < SIZE_MOD P)
    (htop : SIZE_MOD P < alignment + P) (hs : size < SIZE_MOD P)
    (hn : need_alloc P size alignment = some n) : SIZE_MOD P < n + 4 * P := by
  have h8 := eight_mul_lt_SIZE_MOD P
  have ha : 0 < alignment := by omega
  have hP : 0 < P := by omega
  have hb1 := chunks_count_exact_bounds size alignment ha
  have hb2 := chunks_count_exact_bounds P alignment ha
  have hc1 : chunks_count_exact size alignment < 3 := by
    apply Nat.lt_of_mul_lt_mul_left (a := alignment)
    omega
  have hc2 : chunks_count_exact P alignment = 1 := by
    have hlt : chunks_count_exact P alignment < 2 := by
      apply Nat.lt_of_mul_lt_mul_left (a := alignment)
      omega
    rcases Nat.eq_zero_or_pos (chunks_count_exact P alignment) with h0 | h0
    · rw [h0] at hb2
      omega
    · omega
  unfold need_alloc at hn
  rw [if_pos ha, get_chunks_count_eq_exact P size alignment ha hs,
    get_chunks_count_eq_exact P P alignment ha (ptr_lt_SIZE_MOD P), hc2] at hn
  simp only [Option.some.injEq] at hn
  unfold size_sub size_add size_mul at hn
  have h1M : 1 % SIZE_MOD P = 1 := Nat.mod_eq_of_lt (by omega)
  rw [h1M] at hn
  have hcases : chunks_count_exact size alignment = 0 ∨ chunks_count_exact size alignment = 1
      ∨ chunks_count_exact size alignment = 2 := by omega
  rcases hcases with h | h | h <;> rw [h] at hn
  · rw [Nat.mod_eq_of_lt (show 0 + 1 < SIZE_MOD P by omega),
      Nat.mod_eq_of_lt (show alignment * (0 + 1) < SIZE_MOD P by omega),
      mod_eq_sub_mul (alignment * (0 + 1) + alignment) _ 1 (by omega) (by omega),
      mod_eq_sub_mul _ _ 1 (by omega) (by omega)] at hn
    omega
  · rw [Nat.mod_eq_of_lt (show 1 + 1 < SIZE_MOD P by omega),
      mod_eq_sub_mul (alignment * (1 + 1)) _ 1 (by omega) (by omega),
      mod_eq_sub_mul (alignment * (1 + 1) - 1 * SIZE_MOD P + alignment) _ 1
        (by omega) (by omega),
      mod_eq_sub_mul _ _ 1 (by omega) (by omega)] at hn
    omega
  · rw [Nat.mod_eq_of_lt (show 2 + 1 < SIZE_MOD P by omega),
      mod_eq_sub_mul (alignment * (2 + 1)) _ 2 (by omega) (by omega),
      mod_eq_sub_mul (alignment * (2 + 1) - 2 * SIZE_MOD P + alignment) _ 1
        (by omega) (by omega),
      mod_eq_sub_mul _ _ 1 (by omega) (by omega)] at hn
    omega

/-- The address of the back-pointer slot never falls below address `0`: the pointer
`align` returns is at least `sizeof(void *)`, whether or not the shift wrapped. -/
theorem align_slot_no_underflow (P real alignment shift : Nat) (ha : 0 < alignment)
    (haM : alignment < SIZE_MOD P)
    (hshift : get_aligned_shift P real alignment = some shift) : P ≤ real + shift := by
  by_cases hfit : get_aligned_shift_exact P real alignment < SIZE_MOD P
  · have hge := get_aligned_shift_exact_ge P real alignment ha
    rw [get_aligned_shift_eq_exact P real alignment ha haM hfit] at hshift
    injection hshift with hs
    omega
  · obtain ⟨hhas, htop⟩ := shift_wraps_only_at_top P real alignment ha haM hfit
    have h3 := three_mul_lt_SIZE_MOD P
    have hle := Nat.mod_le real alignment
    by_cases h0 : real % alignment > 0
    · unfold has_exact at hhas
      rw [if_pos h0] at hhas
      omega
    · exfalso
      apply hfit
      have hz : has_exact real alignment = 0 := by
        unfold has_exact
        rw [if_neg h0]
      have hlt := mul_chunks_ptr_lt P alignment ha haM
      rw [get_aligned_shift_exact_eq, hz]
      split <;> omega

/-! ## The claims -/

/-- C1. Alignment guarantee: with addresses taken as natural numbers and the shift not
wrapping around `std::size_t`, `get_aligned_shift(r, a)` returns a shift, `align(r, a)`
returns the address `r + shift`, and that address is a multiple of `a`; this covers
both branches of `get_aligned_shift`. -/
theorem align_result_aligned (P : Nat) (s : State) (r a : Nat) (ha : 0 < a)
    (haM : a < SIZE_MOD P) (hfit : get_aligned_shift_exact P r a < SIZE_MOD P) :
    ∃ shift s1, get_aligned_shift P r a = some shift ∧
      align P s r a = some (r + shift, s1) ∧ (r + shift) % a = 0 := by
  have hsh := get_aligned_shift_eq_exact P r a ha haM hfit
  exact ⟨_, _, hsh, align_of_shift P s r a _ hsh, get_aligned_shift_exact_aligned P r a ha⟩

/-- Witness of C1 where the shift is pushed forward: `sizeof(void *) = 8`, `r = 7`,
`a = 8`. -/
theorem align_result_aligned_witness :
    0 < 8 ∧ 8 < SIZE_MOD 8 ∧ get_aligned_shift_exact 8 7 8 < SIZE_MOD 8 ∧
    ∃ shift s1, get_aligned_shift 8 7 8 = some shift ∧
      align 8 ⟨fun _ => 0, []⟩ 7 8 = some (7 + shift, s1) ∧ (7 + shift) % 8 = 0 :=
  ⟨by decide, by decide, by decide,
    align_result_aligned 8 ⟨fun _ => 0, []⟩ 7 8 (by decide) (by decide) (by decide)⟩

/-- C2. Round trip: for every memory state, raw address `r` and alignment `a > 0`,
`align(r, a)` returns a pointer, and `get_real` of that pointer in the state `align`
leaves behind returns exactly `r`. -/
theorem get_real_align (P : Nat) (s : State) (r a : Nat) (ha : 0 < a)
    (haM : a < SIZE_MOD P) (hr : r < SIZE_MOD P) :
    ∃ p s1, align P s r a = some (p, s1) ∧ get_real P s1 p = some r := by
  obtain ⟨shift, hsh⟩ := get_aligned_shift_isSome P r a ha
  have hne := align_result_ne_zero P r a shift ha haM hsh
  refine ⟨_, _, align_of_shift P s r a shift hsh, ?_⟩
  · unfold get_real
    rw [if_pos hne]
    exact congrArg some (load_ptr_store_ptr P s.mem (r + shift - P) r hr)

/-- Witness of C2 on the 64-bit platform: raw address `4096`, alignment `13`. -/
theorem get_real_align_witness :
    0 < 13 ∧ 13 < SIZE_MOD 8 ∧ 4096 < SIZE_MOD 8 ∧
    ∃ p s1, align 8 ⟨fun _ => 0, []⟩ 4096 13 = some (p, s1) ∧ get_real 8 s1 p = some 4096 :=
  ⟨by decide, by decide, by decide,
    get_real_align 8 ⟨fun _ => 0, []⟩ 4096 13 (by decide) (by decide) (by decide)⟩

/-- C3. Capacity guarantee: when `need_alloc(size, a)` does not wrap around, the `size`
bytes that start at the aligned pointer `r + get_aligned_shift(r, a)` end inside the
block of `need_alloc(size, a)` bytes that starts at `r`. -/
theorem aligned_block_fits (P size a r : Nat) (ha : 0 < a) (haM : a < SIZE_MOD P)
    (hs : size < SIZE_MOD P) (hfit : need_alloc_exact P size a < SIZE_MOD P) :
    ∃ shift n, get_aligned_shift P r a = some shift ∧ need_alloc P size a = some n ∧
      r + shift + size ≤ r + n := by
  have hsum := need_alloc_exact_eq P size a ha
  have hb1 := chunks_count_exact_bounds size a ha
  have hle := get_aligned_shift_exact_le P r a ha
  refine ⟨_, _, get_aligned_shift_eq_exact P r a ha haM (by omega),
    need_alloc_eq_exact P size a ha haM hs hfit, ?_⟩
  omega

/-- Witness of C3: `sizeof(void *) = 8`, size `42`, alignment `13`, raw address `4096`. -/
theorem aligned_block_fits_witness :
    0 < 13 ∧ 13 < SIZE_MOD 8 ∧ 42 < SIZE_MOD 8 ∧ need_alloc_exact 8 42 13 < SIZE_MOD 8 ∧
    ∃ shift n, get_aligned_shift 8 4096 13 = some shift ∧ need_alloc 8 42 13 = some n ∧
      4096 + shift + 42 ≤ 4096 + n :=
  ⟨by decide, by decide, by decide, by decide,
    aligned_block_fits 8 42 13 4096 (by decide) (by decide) (by decide) (by decide)⟩

/-- C4, as stated, fails: on the 64-bit platform `get_aligned_shift` of the address
`2^64 - 3` for the alignment `2^64 - 1` is `1`, because `has + alignment * 1 = 2^64 + 1`
wraps around; the shift is below `sizeof(void *) = 8`. -/
theorem get_aligned_shift_wraps :
    0 < 2 ^ 64 - 1 ∧ 2 ^ 64 - 1 < SIZE_MOD 8 ∧ 2 ^ 64 - 3 < SIZE_MOD 8 ∧
    get_aligned_shift 8 (2 ^ 64 - 3) (2 ^ 64 - 1) = some 1 ∧ ¬ (8 ≤ 1) := by
  decide

/-- C4, amended. Back-pointer slot safety: whenever the shift does not wrap around
`std::size_t`, `get_aligned_shift(r, a) ≥ sizeof(void *)`, so the slot `align` writes at
`(r + shift) - sizeof(void *)` starts at or after `r` and ends at the aligned pointer. -/
theorem back_pointer_slot_safe (P r a : Nat) (ha : 0 < a) (haM : a < SIZE_MOD P)
    (hfit : get_aligned_shift_exact P r a < SIZE_MOD P) :
    ∃ shift, get_aligned_shift P r a = some shift ∧ P ≤ shift ∧
      r ≤ r + shift - P ∧ (r + shift - P) + P = r + shift := by
  have hge := get_aligned_shift_exact_ge P r a ha
  refine ⟨_, get_aligned_shift_eq_exact P r a ha haM hfit, hge, ?_, ?_⟩ <;> omega

/-- Witness of the amended C4: `sizeof(void *) = 8`, `r = 7`, `a = 9`. -/
theorem back_pointer_slot_safe_witness :
    0 < 9 ∧ 9 < SIZE_MOD 8 ∧ get_aligned_shift_exact 8 7 9 < SIZE_MOD 8 ∧
    ∃ shift, get_aligned_shift 8 7 9 = some shift ∧ 8 ≤ shift ∧
      7 ≤ 7 + shift - 8 ∧ (7 + shift - 8) + 8 = 7 + shift :=
  ⟨by decide, by decide, by decide,
    back_pointer_slot_safe 8 7 9 (by decide) (by decide) (by decide)⟩

/-- C5. For every `size` and `alignment > 0`, `get_chunks_count(size, alignment)` is the
ceiling of `size / alignment`: the least `k` with `k * alignment ≥ size`.  In particular
`get_chunks_count` of `(1,1)`, `(2,1)`, `(3,2)`, `(2,3)` is `1`, `2`, `2`, `1`. -/
theorem get_chunks_count_is_ceil (P size alignment : Nat) (hP : 0 < P) (ha : 0 < alignment)
    (hs : size < SIZE_MOD P) :
    (∃ k, get_chunks_count P size alignment = some k ∧ size ≤ k * alignment ∧
      ∀ j, size ≤ j * alignment → k ≤ j) ∧
    get_chunks_count P 1 1 = some 1 ∧ get_chunks_count P 2 1 = some 2 ∧
    get_chunks_count P 3 2 = some 2 ∧ get_chunks_count P 2 3 = some 1 := by
  have h3 := three_mul_lt_SIZE_MOD P
  have hb := chunks_count_exact_bounds size alignment ha
  refine ⟨⟨_, get_chunks_count_eq_exact P size alignment ha hs, ?_, ?_⟩, ?_, ?_, ?_, ?_⟩
  · rw [Nat.mul_comm]
    exact hb.1
  · intro j hj
    have hj2 : alignment * chunks_count_exact size alignment < alignment * (j + 1) := by
      rw [Nat.mul_add, Nat.mul_one, Nat.mul_comm alignment j]
      omega
    have := Nat.lt_of_mul_lt_mul_left hj2
    omega
  · exact get_chunks_count_eq_exact P 1 1 (by decide) (by omega)
  · exact get_chunks_count_eq_exact P 2 1 (by decide) (by omega)
  · exact get_chunks_count_eq_exact P 3 2 (by decide) (by omega)
  · exact get_chunks_count_eq_exact P 2 3 (by decide) (by omega)

/-- Witness of C5: `sizeof(void *) = 8`, size `42`, alignment `13`. -/
theorem get_chunks_count_is_ceil_witness :
    0 < 8 ∧ 0 < 13 ∧ 42 < SIZE_MOD 8 ∧
    ((∃ k, get_chunks_count 8 42 13 = some k ∧ 42 ≤ k * 13 ∧
      ∀ j, 42 ≤ j * 13 → k ≤ j) ∧
    get_chunks_count 8 1 1 = some 1 ∧ get_chunks_count 8 2 1 = some 2 ∧
    get_chunks_count 8 3 2 = some 2 ∧ get_chunks_count 8 2 3 = some 1) :=
  ⟨by decide, by decide, by decide,
    get_chunks_count_is_ceil 8 42 13 (by decide) (by decide) (by decide)⟩

/-- C6, as stated, fails: on the 64-bit platform `need_alloc(2^64 - 1, 1)` is `7`, which
is below the requested size (and below `size + sizeof(void *)`), because the sum of the
two chunk counts wraps around. -/
theorem need_alloc_wraps :
    0 < 1 ∧ 1 < SIZE_MOD 8 ∧ 2 ^ 64 - 1 < SIZE_MOD 8 ∧
    need_alloc 8 (2 ^ 64 - 1) 1 = some 7 ∧ ¬ ((2 ^ 64 - 1) + 8 ≤ 7) := by
  decide

/-- C6, amended. Whenever the exact value of `need_alloc(size, alignment)` is a
`std::size_t`, `need_alloc(size, alignment) ≥ size + sizeof(void *)`. -/
theorem need_alloc_ge (P size alignment : Nat) (ha : 0 < alignment)
    (haM : alignment < SIZE_MOD P) (hs : size < SIZE_MOD P)
    (hfit : need_alloc_exact P size alignment < SIZE_MOD P) :
    ∃ n, need_alloc P size alignment = some n ∧ size + P ≤ n := by
  have hsum := need_alloc_exact_eq P size alignment ha
  have hb1 := chunks_count_exact_bounds size alignment ha
  have hb2 := chunks_count_exact_bounds P alignment ha
  refine ⟨_, need_alloc_eq_exact P size alignment ha haM hs hfit, ?_⟩
  omega

/-- Witness of the amended C6: `sizeof(void *) = 8`, size `42`, alignment `13`. -/
theorem need_alloc_ge_witness :
    0 < 13 ∧ 13 < SIZE_MOD 8 ∧ 42 < SIZE_MOD 8 ∧ need_alloc_exact 8 42 13 < SIZE_MOD 8 ∧
    ∃ n, need_alloc 8 42 13 = some n ∧ 42 + 8 ≤ n :=
  ⟨by decide, by decide, by decide, by decide,
    need_alloc_ge 8 42 13 (by decide) (by decide) (by decide) (by decide)⟩

/-- C7, as stated, fails.  On the 64-bit platform, for size `0`, alignment `2` and the
raw address `1` the shift is `9` and `need_alloc(0, 2)` is `9` as well: the aligned
pointer is the end of the block, not strictly inside it.  And for size `2^64 - 1`,
alignment `1` the request wraps around to `7` while the shift is `8`. -/
theorem aligned_pointer_not_inside :
    (0 < 2 ∧ 2 < SIZE_MOD 8 ∧ 1 < SIZE_MOD 8 ∧
      get_aligned_shift 8 1 2 = some 9 ∧ need_alloc 8 0 2 = some 9 ∧ ¬ (1 + 9 < 1 + 9)) ∧
    (0 < 1 ∧ 2 ^ 64 - 1 < SIZE_MOD 8 ∧
      get_aligned_shift 8 1 1 = some 8 ∧ need_alloc 8 (2 ^ 64 - 1) 1 = some 7 ∧
      ¬ (1 + 8 < 1 + 7)) := by
  decide

/-- C7, amended. Whenever the exact value of `need_alloc(size, alignment)` is a
`std::size_t`, the aligned pointer `r + get_aligned_shift(r, alignment)` is at most
`r + need_alloc(size, alignment)`, and strictly less as soon as `size ≥ 1`. -/
theorem aligned_pointer_inside (P size alignment r : Nat) (ha : 0 < alignment)
    (haM : alignment < SIZE_MOD P) (hs : size < SIZE_MOD P)
    (hfit : need_alloc_exact P size alignment < SIZE_MOD P) :
    ∃ shift n, get_aligned_shift P r alignment = some shift ∧
      need_alloc P size alignment = some n ∧
      r + shift ≤ r + n ∧ (1 ≤ size → r + shift < r + n) := by
  have hsum := need_alloc_exact_eq P size alignment ha
  have hb1 := chunks_count_exact_bounds size alignment ha
  have hle := get_aligned_shift_exact_le P r alignment ha
  refine ⟨_, _, get_aligned_shift_eq_exact P r alignment ha haM (by omega),
    need_alloc_eq_exact P size alignment ha haM hs hfit, ?_, ?_⟩
  · omega
  · intro h1
    have hc1 : 1 ≤ chunks_count_exact size alignment := by
      rcases Nat.eq_zero_or_pos (chunks_count_exact size alignment) with h0 | h0
      · rw [h0] at hb1
        omega
      · exact h0
    have := Nat.mul_le_mul_left alignment hc1
    omega

/-- Witness of the amended C7: `sizeof(void *) = 8`, size `1`, alignment `2`, raw
address `1`. -/
theorem aligned_pointer_inside_witness :
    0 < 2 ∧ 2 < SIZE_MOD 8 ∧ 1 < SIZE_MOD 8 ∧ need_alloc_exact 8 1 2 < SIZE_MOD 8 ∧
    ∃ shift n, get_aligned_shift 8 1 2 = some shift ∧ need_alloc 8 1 2 = some n ∧
      1 + shift ≤ 1 + n ∧ (1 ≤ 1 → 1 + shift < 1 + n) :=
  ⟨by decide, by decide, by decide, by decide,
    aligned_pointer_inside 8 1 2 1 (by decide) (by decide) (by decide) (by decide)⟩

/-- C8. Exhaustion is propagated untouched: for every size, alignment `> 0` and state,
if the underlying allocator returns null for the `need_alloc(size, alignment)` bytes
requested, `aligned_malloc` returns null, the memory is unchanged, and the only call
made to the underlying allocator is that request. -/
theorem aligned_malloc_exhausted (P : Nat) (malloc : State → Nat → Nat) (s : State)
    (size alignment : Nat) (ha : 0 < alignment)
    (hnull : ∀ n, need_alloc P size alignment = some n → malloc s n = 0) :
    ∃ n s1, need_alloc P size alignment = some n ∧
      aligned_malloc P malloc s size alignment = some (0, s1) ∧
      s1.mem = s.mem ∧ s1.calls = s.calls ++ [Call.malloc n] := by
  obtain ⟨n, hn⟩ := need_alloc_isSome P size alignment ha
  have h0 := hnull n hn
  refine ⟨n, ⟨s.mem, s.calls ++ [Call.malloc n]⟩, hn, ?_, rfl, rfl⟩
  unfold aligned_malloc
  rw [hn]
  simp only [h0, if_true]

/-- Witness of C8: `sizeof(void *) = 8`, size `42`, alignment `13`, an allocator that
is exhausted. -/
theorem aligned_malloc_exhausted_witness :
    0 < 13 ∧ (∀ n, need_alloc 8 42 13 = some n → (fun (_ : State) (_ : Nat) => 0) ⟨fun _ => 0, []⟩ n = 0) ∧
    ∃ n s1, need_alloc 8 42 13 = some n ∧
      aligned_malloc 8 (fun _ _ => 0) ⟨fun _ => 0, []⟩ 42 13 = some (0, s1) ∧
      s1.mem = (fun _ => 0) ∧ s1.calls = [] ++ [Call.malloc n] :=
  ⟨by decide, fun _ _ => rfl,
    aligned_malloc_exhausted 8 (fun _ _ => 0) ⟨fun _ => 0, []⟩ 42 13 (by decide)
      (fun _ _ => rfl)⟩

/-- C9. End-to-end allocate: for every size and alignment `a > 0`, `aligned_malloc`
makes exactly one request to the underlying allocator, of `need_alloc(size, a)` bytes,
and when the allocator answers with a non-null address `raw` of a block of that many
bytes lying in the address space, `aligned_malloc` returns `p = align(raw, a)`, which is
non-null and a multiple of `a`. -/
theorem aligned_malloc_returns_aligned (P : Nat) (malloc : State → Nat → Nat) (s : State)
    (size a : Nat) (ha : 0 < a) (haM : a < SIZE_MOD P) (hs : size < SIZE_MOD P)
    (hraw : ∀ n, need_alloc P size a = some n →
      malloc s n ≠ 0 ∧ malloc s n + n ≤ SIZE_MOD P) :
    ∃ n p s1, need_alloc P size a = some n ∧
      aligned_malloc P malloc s size a = some (p, s1) ∧
      align P ⟨s.mem, s.calls ++ [Call.malloc n]⟩ (malloc s n) a = some (p, s1) ∧
      s1.calls = s.calls ++ [Call.malloc n] ∧ p ≠ 0 ∧ p % a = 0 := by
  obtain ⟨n, hn⟩ := need_alloc_isSome P size a ha
  obtain ⟨hnz, hblk⟩ := hraw n hn
  obtain ⟨shift, hsh⟩ := get_aligned_shift_isSome P (malloc s n) a ha
  refine ⟨n, _, _, hn, aligned_malloc_of_shift P malloc s size a n shift hn hnz hsh,
    align_of_shift P _ (malloc s n) a shift hsh, rfl, by omega, ?_⟩
  by_cases hfit : get_aligned_shift_exact P (malloc s n) a < SIZE_MOD P
  · rw [get_aligned_shift_eq_exact P (malloc s n) a ha haM hfit] at hsh
    injection hsh with hsh
    rw [← hsh]
    exact get_aligned_shift_exact_aligned P (malloc s n) a ha
  · exfalso
    obtain ⟨hhas, htop⟩ := shift_wraps_only_at_top P (malloc s n) a ha haM hfit
    have hbig := need_alloc_at_top P size a n haM htop hs hn
    have h8 := eight_mul_lt_SIZE_MOD P
    have hmod : malloc s n % a = malloc s n := Nat.mod_eq_of_lt (by omega)
    unfold has_exact at hhas
    rw [hmod, if_pos (by omega)] at hhas
    omega

/-- Witness of C9, the case of the test-suite: `sizeof(void *) = 8`, size `42`,
alignment `13`, and an allocator answering with the address `4096`. -/
theorem aligned_malloc_returns_aligned_witness :
    0 < 13 ∧ 13 < SIZE_MOD 8 ∧ 42 < SIZE_MOD 8 ∧
    (∀ n, need_alloc 8 42 13 = some n →
      (fun (_ : State) (_ : Nat) => 4096) ⟨fun _ => 0, []⟩ n ≠ 0 ∧
      (fun (_ : State) (_ : Nat) => 4096) ⟨fun _ => 0, []⟩ n + n ≤ SIZE_MOD 8) ∧
    ∃ n p s1, need_alloc 8 42 13 = some n ∧
      aligned_malloc 8 (fun _ _ => 4096) ⟨fun _ => 0, []⟩ 42 13 = some (p, s1) ∧
      align 8 ⟨(fun _ => 0), [] ++ [Call.malloc n]⟩ 4096 13 = some (p, s1) ∧
      s1.calls = [] ++ [Call.malloc n] ∧ p ≠ 0 ∧ p % 13 = 0 :=
  have hraw : ∀ n, need_alloc 8 42 13 = some n →
      (fun (_ : State) (_ : Nat) => 4096) ⟨fun _ => 0, []⟩ n ≠ 0 ∧
      (fun (_ : State) (_ : Nat) => 4096) ⟨fun _ => 0, []⟩ n + n ≤ SIZE_MOD 8 := by
    intro n hn
    have h77 : need_alloc 8 42 13 = some 77 := by decide
    rw [h77] at hn
    injection hn with hn
    subst hn
    decide
  ⟨by decide, by decide, by decide, hraw,
    aligned_malloc_returns_aligned 8 (fun _ _ => 4096) ⟨fun _ => 0, []⟩ 42 13
      (by decide) (by decide) (by decide) hraw⟩

/-- C10. End-to-end release: for every size, alignment `a > 0` and non-null address
`raw` returned by the underlying allocator, `aligned_free` of the pointer returned by
`aligned_malloc`, in the state `aligned_malloc` leaves, makes exactly one call to the
underlying allocator, `free(raw)`, and writes nothing. -/
theorem aligned_free_releases_raw (P : Nat) (malloc : State → Nat → Nat) (s : State)
    (size a : Nat) (ha : 0 < a)
    (hraw : ∀ n, need_alloc P size a = some n →
      malloc s n ≠ 0 ∧ malloc s n < SIZE_MOD P) :
    ∃ n p s1 s2, need_alloc P size a = some n ∧
      aligned_malloc P malloc s size a = some (p, s1) ∧
      aligned_free P s1 p = some s2 ∧
      s2.calls = s1.calls ++ [Call.free (malloc s n)] ∧ s2.mem = s1.mem := by
  obtain ⟨n, hn⟩ := need_alloc_isSome P size a ha
  obtain ⟨hnz, hlt⟩ := hraw n hn
  obtain ⟨shift, hsh⟩ := get_aligned_shift_isSome P (malloc s n) a ha
  have hp : malloc s n + shift ≠ 0 := by omega
  refine ⟨n, _, _,
    ⟨store_ptr P s.mem (malloc s n + shift - P) (malloc s n),
      (s.calls ++ [Call.malloc n]) ++ [Call.free (malloc s n)]⟩,
    hn, aligned_malloc_of_shift P malloc s size a n shift hn hnz hsh, ?_, rfl, rfl⟩
  unfold aligned_free get_real
  simp only [if_neg hp, if_pos hp]
  rw [load_ptr_store_ptr P s.mem _ (malloc s n) hlt]

/-- Witness of C10, the case of the test-suite: `sizeof(void *) = 8`, size `42`,
alignment `13`, and an allocator answering with the address `4096`. -/
theorem aligned_free_releases_raw_witness :
    0 < 13 ∧
    (∀ n, need_alloc 8 42 13 = some n →
      (fun (_ : State) (_ : Nat) => 4096) ⟨fun _ => 0, []⟩ n ≠ 0 ∧
      (fun (_ : State) (_ : Nat) => 4096) ⟨fun _ => 0, []⟩ n < SIZE_MOD 8) ∧
    ∃ n p s1 s2, need_alloc 8 42 13 = some n ∧
      aligned_malloc 8 (fun _ _ => 4096) ⟨fun _ => 0, []⟩ 42 13 = some (p, s1) ∧
      aligned_free 8 s1 p = some s2 ∧
      s2.calls = s1.calls ++ [Call.free 4096] ∧ s2.mem = s1.mem :=
  ⟨by decide,
    fun _ _ => ⟨(by decide : (4096 : Nat) ≠ 0), (by decide : 4096 < SIZE_MOD 8)⟩,
    aligned_free_releases_raw 8 (fun _ _ => 4096) ⟨fun _ => 0, []⟩ 42 13
      (by decide)
      (fun _ _ => ⟨(by decide : (4096 : Nat) ≠ 0), (by decide : 4096 < SIZE_MOD 8)⟩)⟩

/-! ## Lemmas for the remaining claims -/

/-- When `aligned_malloc` returns, the state it returns is the state the call ends in. -/
theorem aligned_malloc_end_state_eq (P : Nat) (malloc : State → Nat → Nat) (s : State)
    (size alignment p : Nat) (s1 : State)
    (h : aligned_malloc P malloc s size alignment = some (p, s1)) :
    aligned_malloc_end_state P malloc s size alignment = s1 := by
  unfold aligned_malloc at h
  unfold aligned_malloc_end_state
  cases hn : need_alloc P size alignment with
  | none => rw [hn] at h; cases h
  | some n =>
    rw [hn] at h
    simp only at h ⊢
    by_cases h0 : malloc s n = 0
    · simp only [h0, if_true, Option.some.injEq, Prod.mk.injEq] at h ⊢
      exact h.2
    · simp only [h0, if_false] at h ⊢
      rw [h]

theorem get_chunks_count_eq_none_iff (P size alignment : Nat) :
    get_chunks_count P size alignment = none ↔ alignment = 0 := by
  unfold get_chunks_count
  by_cases ha : alignment > 0
  · simp only [if_pos ha]
    constructor
    · intro h; cases h
    · intro h; omega
  · simp only [if_neg ha]
    constructor
    · intro _; omega
    · intro _; trivial

theorem need_alloc_eq_none_iff (P size alignment : Nat) :
    need_alloc P size alignment = none ↔ alignment = 0 := by
  by_cases ha : alignment > 0
  · obtain ⟨n, hn⟩ := need_alloc_isSome P size alignment ha
    rw [hn]
    constructor
    · intro h; cases h
    · intro h; omega
  · unfold need_alloc
    simp only [if_neg ha]
    constructor
    · intro _; omega
    · intro _; trivial

theorem get_aligned_shift_eq_none_iff (P real alignment : Nat) :
    get_aligned_shift P real alignment = none ↔ alignment = 0 := by
  by_cases ha : alignment > 0
  · obtain ⟨n, hn⟩ := get_aligned_shift_isSome P real alignment ha
    rw [hn]
    constructor
    · intro h; cases h
    · intro h; omega
  · unfold get_aligned_shift
    simp only [if_neg ha]
    constructor
    · intro _; omega
    · intro _; trivial

/-- C11. `aligned_free(nullptr)` does not go through `get_real` (whose assertion would
fail on a null pointer): in every state it returns, having made exactly one call
`free(nullptr)` to the underlying allocator, with the memory unchanged; and what it
does is the same whatever the memory holds. -/
theorem aligned_free_null (P : Nat) (s : State) :
    get_real P s 0 = none ∧
    aligned_free P s 0 = some ⟨s.mem, s.calls ++ [Call.free 0]⟩ ∧
    ∀ m : Memory, aligned_free P ⟨m, s.calls⟩ 0 = some ⟨m, s.calls ++ [Call.free 0]⟩ := by
  refine ⟨?_, ?_, ?_⟩
  · unfold get_real
    simp
  · unfold aligned_free
    simp
  · intro m
    unfold aligned_free
    simp

/-- C12. Contract violation on alignment `0`: `get_chunks_count`, `need_alloc` and
`get_aligned_shift` fail exactly when `alignment = 0`, so for `alignment > 0` every one
of them returns; and `aligned_malloc(size, 0)` fails in a state where no request has
reached the underlying allocator and the memory is untouched. -/
theorem alignment_zero_contract (P size real alignment : Nat)
    (malloc : State → Nat → Nat) (s : State) :
    (get_chunks_count P size alignment = none ↔ alignment = 0) ∧
    (need_alloc P size alignment = none ↔ alignment = 0) ∧
    (get_aligned_shift P real alignment = none ↔ alignment = 0) ∧
    aligned_malloc P malloc s size 0 = none ∧
    (aligned_malloc_end_state P malloc s size 0).calls = s.calls ∧
    (aligned_malloc_end_state P malloc s size 0).mem = s.mem := by
  refine ⟨get_chunks_count_eq_none_iff P size alignment,
    need_alloc_eq_none_iff P size alignment,
    get_aligned_shift_eq_none_iff P real alignment, ?_, ?_, ?_⟩
  · unfold aligned_malloc
    rw [(need_alloc_eq_none_iff P size 0).2 rfl]
  · unfold aligned_malloc_end_state
    rw [(need_alloc_eq_none_iff P size 0).2 rfl]
  · unfold aligned_malloc_end_state
    rw [(need_alloc_eq_none_iff P size 0).2 rfl]

theorem pos_of_lt_SIZE_MOD (P alignment : Nat) (ha : 0 < alignment)
    (haM : alignment < SIZE_MOD P) : 0 < P := by
  rcases Nat.eq_zero_or_pos P with h | h
  · subst h
    have : SIZE_MOD 0 = 1 := rfl
    omega
  · exact h

/-- The exact chunk count is characterised by its two bounds. -/
theorem chunks_count_exact_eq (size alignment k : Nat) (ha : 0 < alignment)
    (h1 : size ≤ alignment * k) (h2 : alignment * k < size + alignment) :
    chunks_count_exact size alignment = k := by
  have hb := chunks_count_exact_bounds size alignment ha
  have hlt1 : chunks_count_exact size alignment < k + 1 := by
    apply Nat.lt_of_mul_lt_mul_left (a := alignment)
    rw [Nat.mul_add, Nat.mul_one]
    omega
  have hlt2 : k < chunks_count_exact size alignment + 1 := by
    apply Nat.lt_of_mul_lt_mul_left (a := alignment)
    rw [Nat.mul_add, Nat.mul_one]
    omega
  omega

/-- On an address that is already aligned the exact shift is the push-forward. -/
theorem get_aligned_shift_of_aligned (P r a : Nat) (ha : 0 < a) (haM : a < SIZE_MOD P)
    (hr : r % a = 0) :
    get_aligned_shift P r a = some (a * chunks_count_exact P a) := by
  have hP := pos_of_lt_SIZE_MOD P a ha haM
  have hz : has_exact r a = 0 := by
    unfold has_exact
    rw [hr]
    rfl
  have hex : get_aligned_shift_exact P r a = a * chunks_count_exact P a := by
    rw [get_aligned_shift_exact_eq, hz, if_pos hP, Nat.zero_add]
  have hlt := mul_chunks_ptr_lt P a ha haM
  rw [get_aligned_shift_eq_exact P r a ha haM (by omega), hex]

/-- C13. Already-aligned edge case: for every alignment `a > 0` and raw address `r`
with `r mod a = 0`, `get_aligned_shift(r, a)` is
`a * get_chunks_count(sizeof(void *), a)`, which is positive, so `align` does not return
the start of the raw block; for `a = 1` the shift is `sizeof(void *)` for every address,
and for `a = sizeof(void *) - 1` it is `2 * sizeof(void *) - 2`. -/
theorem get_aligned_shift_already_aligned (P r a : Nat) (ha : 0 < a)
    (haM : a < SIZE_MOD P) (hr : r % a = 0) :
    (∃ c, get_chunks_count P P a = some c ∧ get_aligned_shift P r a = some (a * c) ∧
      0 < a * c ∧
      ∀ s : State, ∃ p s1, align P s r a = some (p, s1) ∧ p = r + a * c ∧ p ≠ r) ∧
    (∀ r1, get_aligned_shift P r1 1 = some P) ∧
    (∀ r1, 2 ≤ P → r1 % (P - 1) = 0 →
      get_aligned_shift P r1 (P - 1) = some (2 * P - 2)) := by
  have hP := pos_of_lt_SIZE_MOD P a ha haM
  have hPM := ptr_lt_SIZE_MOD P
  have hb := chunks_count_exact_bounds P a ha
  have hsh := get_aligned_shift_of_aligned P r a ha haM hr
  refine ⟨⟨_, get_chunks_count_eq_exact P P a ha hPM, hsh, by omega, ?_⟩, ?_, ?_⟩
  · intro s
    exact ⟨_, _, align_of_shift P s r a _ hsh, rfl, by omega⟩
  · intro r1
    have h1 : chunks_count_exact P 1 = P :=
      chunks_count_exact_eq P 1 P (by decide) (by omega) (by omega)
    have := get_aligned_shift_of_aligned P r1 1 (by decide) (by omega) (Nat.mod_one r1)
    rw [h1, Nat.one_mul] at this
    exact this
  · intro r1 h2 hr1
    have h3 := three_mul_lt_SIZE_MOD P
    have hmul : (P - 1) * 2 = 2 * P - 2 := by omega
    have h2c : chunks_count_exact P (P - 1) = 2 :=
      chunks_count_exact_eq P (P - 1) 2 (by omega) (by omega) (by omega)
    have := get_aligned_shift_of_aligned P r1 (P - 1) (by omega) (by omega) hr1
    rw [h2c, hmul] at this
    exact this

/-- Witness of C13: `sizeof(void *) = 8`, the address `7` and the alignment `7`. -/
theorem get_aligned_shift_already_aligned_witness :
    0 < 7 ∧ 7 < SIZE_MOD 8 ∧ 7 % 7 = 0 ∧
    ((∃ c, get_chunks_count 8 8 7 = some c ∧ get_aligned_shift 8 7 7 = some (7 * c) ∧
      0 < 7 * c ∧
      ∀ s : State, ∃ p s1, align 8 s 7 7 = some (p, s1) ∧ p = 7 + 7 * c ∧ p ≠ 7) ∧
    (∀ r1, get_aligned_shift 8 r1 1 = some 8) ∧
    (∀ r1, 2 ≤ 8 → r1 % (8 - 1) = 0 →
      get_aligned_shift 8 r1 (8 - 1) = some (2 * 8 - 2))) :=
  ⟨by decide, by decide, by decide,
    get_aligned_shift_already_aligned 8 7 7 (by decide) (by decide) (by decide)⟩

/-- Two offsets that both align `r` differ by at least one alignment unit. -/
theorem aligned_offsets_apart (r a h t : Nat) (hh : (r + h) % a = 0)
    (ht : (r + t) % a = 0) (hlt : h < t) : h + a ≤ t := by
  have hsub : (r + t - (r + h)) % a = 0 :=
    Nat.sub_mod_eq_zero_of_mod_eq (by rw [ht, hh])
  have heq : r + t - (r + h) = t - h := by omega
  rw [heq] at hsub
  have hdvd : a ∣ t - h := Nat.dvd_of_mod_eq_zero hsub
  have := Nat.le_of_dvd (by omega) hdvd
  omega

/-- The offset `has` is the least one that aligns `real`. -/
theorem has_exact_least (real alignment h : Nat) (ha : 0 < alignment)
    (hh : (real + h) % alignment = 0) : has_exact real alignment ≤ h := by
  have hlt := has_exact_lt real alignment ha
  have hal := has_exact_aligned real alignment ha
  by_contra hc
  have := aligned_offsets_apart real alignment h (has_exact real alignment) hh hal (by omega)
  omega

/-- The least aligning offset is `has`. -/
theorem least_offset_eq_has_exact (real alignment has : Nat) (ha : 0 < alignment)
    (hal : (real + has) % alignment = 0)
    (hmin : ∀ h, (real + h) % alignment = 0 → has ≤ h) :
    has = has_exact real alignment := by
  have h1 := has_exact_least real alignment has ha hal
  have h2 := hmin _ (has_exact_aligned real alignment ha)
  omega

/-- C14, as stated, fails.  On the 64-bit platform, for the address `2^64 - 4` and the
alignment `2^64 - 1` the least aligning offset is `3 < 8`, the chunk count is `1`, and
the code returns `2`, not `3 + (2^64 - 1) * 1`: the sum wraps around.  And where
`sizeof(void *) = 2`, the address `1` and the alignment `3` give the shift `2`, not
`sizeof(void *) + 3`. -/
theorem get_aligned_shift_not_reference :
    (0 < 2 ^ 64 - 1 ∧ ((2 ^ 64 - 4) + 3) % (2 ^ 64 - 1) = 0 ∧
      (∀ h, h < 3 → ((2 ^ 64 - 4) + h) % (2 ^ 64 - 1) ≠ 0) ∧ 3 < 8 ∧
      get_chunks_count 8 8 (2 ^ 64 - 1) = some 1 ∧
      get_aligned_shift 8 (2 ^ 64 - 4) (2 ^ 64 - 1) = some 2 ∧
      2 ≠ 3 + (2 ^ 64 - 1) * 1) ∧
    (get_aligned_shift 2 (2 - 1) (2 + 1) = some 2 ∧ 2 ≠ 2 + 3) := by
  decide

/-- C14, amended. `get_aligned_shift` equals its reference definition whenever the
shift does not wrap around: with `has` the least offset such that `(r + has) mod a = 0`,
the shift is `has` when `has ≥ sizeof(void *)` and
`has + a * get_chunks_count(sizeof(void *), a)` when `has < sizeof(void *)`.  Where
`sizeof(void *) ≥ 3`, the address `sizeof(void *) - 1` gives `sizeof(void *) + 1` for
the alignment `sizeof(void *)` and `sizeof(void *) + 3` for `sizeof(void *) + 1`. -/
theorem get_aligned_shift_reference (P r a has : Nat) (ha : 0 < a) (haM : a < SIZE_MOD P)
    (hfit : get_aligned_shift_exact P r a < SIZE_MOD P)
    (hal : (r + has) % a = 0) (hmin : ∀ h, (r + h) % a = 0 → has ≤ h) :
    (P ≤ has → get_aligned_shift P r a = some has) ∧
    (has < P → ∃ c, get_chunks_count P P a = some c ∧
      get_aligned_shift P r a = some (has + a * c)) ∧
    (3 ≤ P → get_aligned_shift P (P - 1) P = some (P + 1) ∧
      get_aligned_shift P (P - 1) (P + 1) = some (P + 3)) := by
  have hhas := least_offset_eq_has_exact r a has ha hal hmin
  have hsh := get_aligned_shift_eq_exact P r a ha haM hfit
  have h8 := eight_mul_lt_SIZE_MOD P
  rw [get_aligned_shift_exact_eq, ← hhas] at hsh
  refine ⟨?_, ?_, ?_⟩
  · intro hge
    rw [hsh, if_neg (by omega)]
  · intro hlt
    refine ⟨_, get_chunks_count_eq_exact P P a ha (ptr_lt_SIZE_MOD P), ?_⟩
    rw [hsh, if_pos hlt]
  · intro h3
    constructor
    · have hmod : (P - 1) % P = P - 1 := Nat.mod_eq_of_lt (by omega)
      have hh : has_exact (P - 1) P = 1 := by
        unfold has_exact
        rw [hmod, if_pos (by omega)]
        omega
      have hc : chunks_count_exact P P = 1 :=
        chunks_count_exact_eq P P 1 (by omega) (by omega) (by omega)
      have hex : get_aligned_shift_exact P (P - 1) P = P + 1 := by
        rw [get_aligned_shift_exact_eq, hh, hc, if_pos (by omega)]
        omega
      rw [get_aligned_shift_eq_exact P (P - 1) P (by omega) (by omega) (by omega), hex]
    · have hmod : (P - 1) % (P + 1) = P - 1 := Nat.mod_eq_of_lt (by omega)
      have hh : has_exact (P - 1) (P + 1) = 2 := by
        unfold has_exact
        rw [hmod, if_pos (by omega)]
        omega
      have hc : chunks_count_exact P (P + 1) = 1 :=
        chunks_count_exact_eq P (P + 1) 1 (by omega) (by omega) (by omega)
      have hex : get_aligned_shift_exact P (P - 1) (P + 1) = P + 3 := by
        rw [get_aligned_shift_exact_eq, hh, hc, if_pos (by omega)]
        omega
      rw [get_aligned_shift_eq_exact P (P - 1) (P + 1) (by omega) (by omega) (by omega),
        hex]

/-- Witness of the amended C14: `sizeof(void *) = 8`, the address `7`, the alignment
`9`, whose least aligning offset is `2`. -/
theorem get_aligned_shift_reference_witness :
    0 < 9 ∧ 9 < SIZE_MOD 8 ∧ get_aligned_shift_exact 8 7 9 < SIZE_MOD 8 ∧
    (7 + 2) % 9 = 0 ∧ (∀ h, (7 + h) % 9 = 0 → 2 ≤ h) ∧
    ((8 ≤ 2 → get_aligned_shift 8 7 9 = some 2) ∧
    (2 < 8 → ∃ c, get_chunks_count 8 8 9 = some c ∧
      get_aligned_shift 8 7 9 = some (2 + 9 * c)) ∧
    (3 ≤ 8 → get_aligned_shift 8 (8 - 1) 8 = some (8 + 1) ∧
      get_aligned_shift 8 (8 - 1) (8 + 1) = some (8 + 3))) :=
  have hmin : ∀ h, (7 + h) % 9 = 0 → 2 ≤ h := by
    intro h hh
    omega
  ⟨by decide, by decide, by decide, by decide, hmin,
    get_aligned_shift_reference 8 7 9 2 (by decide) (by decide) (by decide) (by decide)
      hmin⟩

theorem chunks_count_exact_mono (s1 s2 alignment : Nat) (ha : 0 < alignment)
    (h : s1 ≤ s2) : chunks_count_exact s1 alignment ≤ chunks_count_exact s2 alignment := by
  have hb1 := chunks_count_exact_bounds s1 alignment ha
  have hb2 := chunks_count_exact_bounds s2 alignment ha
  have hlt : chunks_count_exact s1 alignment < chunks_count_exact s2 alignment + 1 := by
    apply Nat.lt_of_mul_lt_mul_left (a := alignment)
    rw [Nat.mul_add, Nat.mul_one]
    omega
  omega

theorem need_alloc_exact_mono (P s1 s2 alignment : Nat) (ha : 0 < alignment)
    (h : s1 ≤ s2) : need_alloc_exact P s1 alignment ≤ need_alloc_exact P s2 alignment := by
  have e1 := need_alloc_exact_eq P s1 alignment ha
  have e2 := need_alloc_exact_eq P s2 alignment ha
  have hm := Nat.mul_le_mul_left alignment (chunks_count_exact_mono s1 s2 alignment ha h)
  omega

theorem need_alloc_exact_ge_size (P size alignment : Nat) (ha : 0 < alignment) :
    size + P ≤ need_alloc_exact P size alignment := by
  have e := need_alloc_exact_eq P size alignment ha
  have hb1 := chunks_count_exact_bounds size alignment ha
  have hb2 := chunks_count_exact_bounds P alignment ha
  omega

/-- The exact request in terms of the number of alignment units the size rounds to. -/
theorem need_alloc_exact_of_chunks (P size a k : Nat)
    (hk : chunks_count_exact size a = k) :
    need_alloc_exact P size a = a * (k + chunks_count_exact P a) + a - 1 := by
  unfold need_alloc_exact
  rw [hk]

/-- Rounding of the request to whole alignment units, as long as nothing wraps. -/
theorem need_alloc_rounding (P a k j : Nat) (ha : 0 < a) (haM : a < SIZE_MOD P)
    (hk : 1 ≤ k) (hj : j < a) (hfit : need_alloc_exact P (k * a + 1) a < SIZE_MOD P) :
    need_alloc P (k * a - j) a = some (a * (k + chunks_count_exact P a) + a - 1) ∧
    need_alloc P (k * a) a = some (a * (k + chunks_count_exact P a) + a - 1) ∧
    need_alloc P (k * a + 1) a = some (a * (k + chunks_count_exact P a) + a - 1 + a) := by
  have hcomm := Nat.mul_comm k a
  have hka : a * 1 ≤ a * k := Nat.mul_le_mul_left a hk
  have hge := need_alloc_exact_ge_size P (k * a + 1) a ha
  have hm1 := need_alloc_exact_mono P (k * a - j) (k * a + 1) a ha (by omega)
  have hm2 := need_alloc_exact_mono P (k * a) (k * a + 1) a ha (by omega)
  have hc1 : chunks_count_exact (k * a - j) a = k :=
    chunks_count_exact_eq _ a k ha (by omega) (by omega)
  have hc2 : chunks_count_exact (k * a) a = k :=
    chunks_count_exact_eq _ a k ha (by omega) (by omega)
  have hc3 : chunks_count_exact (k * a + 1) a = k + 1 :=
    chunks_count_exact_eq _ a (k + 1) ha (by rw [Nat.mul_add]; omega)
      (by rw [Nat.mul_add]; omega)
  have e1 := need_alloc_exact_of_chunks P (k * a - j) a k hc1
  have e2 := need_alloc_exact_of_chunks P (k * a) a k hc2
  have e3 := need_alloc_exact_of_chunks P (k * a + 1) a (k + 1) hc3
  refine ⟨?_, ?_, ?_⟩
  · rw [need_alloc_eq_exact P (k * a - j) a ha haM (by omega) (by omega), e1]
  · rw [need_alloc_eq_exact P (k * a) a ha haM (by omega) (by omega), e2]
  · rw [need_alloc_eq_exact P (k * a + 1) a ha haM (by omega) hfit, e3]
    congr 1
    have h1 : a * (k + 1 + chunks_count_exact P a)
        = a * (k + chunks_count_exact P a) + a := by ring
    have h2 : 0 < a * (k + chunks_count_exact P a) + a := by omega
    omega

/-- C15, as stated, fails.  On the 64-bit platform `need_alloc(k * a, a)` with
`k = 2^64 - 1`, `a = 1` is `7`, not `a * (k + 8) + a - 1`; and `need_alloc` is not
monotone: the sizes `2^64 - 10 ≤ 2^64 - 8` get the requests `2^64 - 2` and `0`. -/
theorem need_alloc_not_monotone :
    (0 < 1 ∧ 1 ≤ 2 ^ 64 - 1 ∧ (2 ^ 64 - 1) * 1 < SIZE_MOD 8 ∧
      get_chunks_count 8 8 1 = some 8 ∧
      need_alloc 8 ((2 ^ 64 - 1) * 1) 1 = some 7 ∧
      7 ≠ 1 * ((2 ^ 64 - 1) + 8) + 1 - 1) ∧
    (2 ^ 64 - 10 ≤ 2 ^ 64 - 8 ∧ 2 ^ 64 - 8 < SIZE_MOD 8 ∧
      need_alloc 8 (2 ^ 64 - 10) 1 = some (2 ^ 64 - 2) ∧
      need_alloc 8 (2 ^ 64 - 8) 1 = some 0 ∧ ¬ (2 ^ 64 - 2 ≤ 0)) := by
  decide

/-- C15, amended. As long as `need_alloc` does not wrap around at the sizes involved,
it rounds the size up to whole alignment units: for `a > 0`, `k ≥ 1` and `0 ≤ j < a`
such that the exact value of `need_alloc(k*a + 1, a)` is a `std::size_t`,
`need_alloc(k*a - j, a) = need_alloc(k*a, a) = a * (k + get_chunks_count(sizeof(void *),
a)) + a - 1` and `need_alloc(k*a + 1, a) = need_alloc(k*a, a) + a`; with
`a = sizeof(void *) ≥ 2` the sizes `P - 1` and `P` give `3P - 1` and `P + 1` gives
`4P - 1`; and for every `a > 0`, `need_alloc` is monotone in the size up to any size at
which it does not wrap around. -/
theorem need_alloc_rounds_up (P a : Nat) (ha : 0 < a) (haM : a < SIZE_MOD P) :
    (∀ k j, 1 ≤ k → j < a → need_alloc_exact P (k * a + 1) a < SIZE_MOD P →
      ∃ c, get_chunks_count P P a = some c ∧
        need_alloc P (k * a - j) a = some (a * (k + c) + a - 1) ∧
        need_alloc P (k * a) a = some (a * (k + c) + a - 1) ∧
        need_alloc P (k * a + 1) a = some (a * (k + c) + a - 1 + a)) ∧
    (2 ≤ P → need_alloc P (P - 1) P = some (3 * P - 1) ∧
      need_alloc P P P = some (3 * P - 1) ∧ need_alloc P (P + 1) P = some (4 * P - 1)) ∧
    (∀ s1 s2, s1 ≤ s2 → s2 < SIZE_MOD P → need_alloc_exact P s2 a < SIZE_MOD P →
      ∃ n1 n2, need_alloc P s1 a = some n1 ∧ need_alloc P s2 a = some n2 ∧ n1 ≤ n2) := by
  have h8 := eight_mul_lt_SIZE_MOD P
  refine ⟨?_, ?_, ?_⟩
  · intro k j hk hj hfit
    exact ⟨_, get_chunks_count_eq_exact P P a ha (ptr_lt_SIZE_MOD P),
      need_alloc_rounding P a k j ha haM hk hj hfit⟩
  · intro h2
    have hc : chunks_count_exact P P = 1 :=
      chunks_count_exact_eq P P 1 (by omega) (by omega) (by omega)
    have hc3 : chunks_count_exact (1 * P + 1) P = 2 :=
      chunks_count_exact_eq _ P 2 (by omega) (by omega) (by omega)
    have hex : need_alloc_exact P (1 * P + 1) P = 4 * P - 1 := by
      rw [need_alloc_exact_of_chunks P (1 * P + 1) P 2 hc3, hc]
      have : P * (2 + 1) = 3 * P := by ring
      omega
    have hr := need_alloc_rounding P P 1 1 (by omega) (by omega) (Nat.le_refl 1) (by omega)
      (by omega)
    rw [hc] at hr
    have e1 : 1 * P - 1 = P - 1 := by omega
    have e2 : 1 * P = P := by omega
    have e3 : P * (1 + 1) + P - 1 = 3 * P - 1 := by
      have : P * (1 + 1) = 2 * P := by ring
      omega
    have e4 : 3 * P - 1 + P = 4 * P - 1 := by omega
    rw [e1, e2, e3, e4] at hr
    exact hr
  · intro s1 s2 h12 hs2 hfit2
    have hm := need_alloc_exact_mono P s1 s2 a ha h12
    exact ⟨_, _, need_alloc_eq_exact P s1 a ha haM (by omega) (by omega),
      need_alloc_eq_exact P s2 a ha haM hs2 hfit2, hm⟩

/-- Witness of the amended C15: `sizeof(void *) = 8` and `a = 8`; the rounding is met at
`k = 1`, `j = 1`, whose hypotheses hold. -/
theorem need_alloc_rounds_up_witness :
    0 < 8 ∧ 8 < SIZE_MOD 8 ∧
    (1 ≤ 1 ∧ 1 < 8 ∧ need_alloc_exact 8 (1 * 8 + 1) 8 < SIZE_MOD 8) ∧
    ((∀ k j, 1 ≤ k → j < 8 → need_alloc_exact 8 (k * 8 + 1) 8 < SIZE_MOD 8 →
      ∃ c, get_chunks_count 8 8 8 = some c ∧
        need_alloc 8 (k * 8 - j) 8 = some (8 * (k + c) + 8 - 1) ∧
        need_alloc 8 (k * 8) 8 = some (8 * (k + c) + 8 - 1) ∧
        need_alloc 8 (k * 8 + 1) 8 = some (8 * (k + c) + 8 - 1 + 8)) ∧
    (2 ≤ 8 → need_alloc 8 (8 - 1) 8 = some (3 * 8 - 1) ∧
      need_alloc 8 8 8 = some (3 * 8 - 1) ∧ need_alloc 8 (8 + 1) 8 = some (4 * 8 - 1)) ∧
    (∀ s1 s2, s1 ≤ s2 → s2 < SIZE_MOD 8 → need_alloc_exact 8 s2 8 < SIZE_MOD 8 →
      ∃ n1 n2, need_alloc 8 s1 8 = some n1 ∧ need_alloc 8 s2 8 = some n2 ∧ n1 ≤ n2)) :=
  ⟨by decide, by decide, ⟨by decide, by decide, by decide⟩,
    need_alloc_rounds_up 8 8 (by decide) (by decide)⟩

theorem size_add_lt (P x y : Nat) : size_add P x y < SIZE_MOD P := by
  unfold size_add
  exact Nat.mod_lt _ (SIZE_MOD_pos P)

/-- No step of `need_alloc` wraps exactly when the exact request is below the largest
`std::size_t`. -/
theorem need_alloc_no_wrap_iff (P size alignment : Nat) (ha : 0 < alignment)
    (hs : size < SIZE_MOD P) :
    need_alloc_no_wrap P size alignment ↔
      need_alloc_exact P size alignment + 1 < SIZE_MOD P := by
  have hsum := need_alloc_exact_eq P size alignment ha
  have hPM := ptr_lt_SIZE_MOD P
  have hle1 := chunks_count_exact_le size alignment ha
  have hle2 := chunks_count_exact_le P alignment ha
  have hmul := Nat.mul_add alignment (chunks_count_exact size alignment)
    (chunks_count_exact P alignment)
  have hcc : chunks_count_exact size alignment + chunks_count_exact P alignment
      ≤ alignment * (chunks_count_exact size alignment + chunks_count_exact P alignment) :=
    Nat.le_mul_of_pos_left _ ha
  have e1 : size_add P (size / alignment) (if size % alignment ≠ 0 then 1 else 0)
      = chunks_count_exact size alignment := size_add_eq P _ _ (by
        unfold chunks_count_exact at hle1
        omega)
  have e2 : size_add P (P / alignment) (if P % alignment ≠ 0 then 1 else 0)
      = chunks_count_exact P alignment := size_add_eq P _ _ (by
        unfold chunks_count_exact at hle2
        omega)
  unfold need_alloc_no_wrap
  simp only [e1, e2]
  constructor
  · rintro ⟨_, _, h3, h4, h5, _⟩
    have hlt := size_add_lt P (size_mul P alignment
      (size_add P (chunks_count_exact size alignment) (chunks_count_exact P alignment)))
      alignment
    rw [h5, h4, h3] at hlt
    omega
  · intro hfit
    have h3 : size_add P (chunks_count_exact size alignment) (chunks_count_exact P alignment)
        = chunks_count_exact size alignment + chunks_count_exact P alignment :=
      size_add_eq P _ _ (by omega)
    have h4 : size_mul P alignment
        (chunks_count_exact size alignment + chunks_count_exact P alignment)
        = alignment * (chunks_count_exact size alignment + chunks_count_exact P alignment) :=
      size_mul_eq P _ _ (by omega)
    have h5 : size_add P
        (alignment * (chunks_count_exact size alignment + chunks_count_exact P alignment))
        alignment
        = alignment * (chunks_count_exact size alignment + chunks_count_exact P alignment)
          + alignment := size_add_eq P _ _ (by omega)
    rw [h3, h4, h5]
    refine ⟨rfl, rfl, rfl, rfl, rfl, by omega⟩

/-- C16, as stated, fails in its second half.  On the 64-bit platform, for size
`2^64 - 9` and alignment `1` the exact request `2^64 - 1` is below `2^64`, yet the
intermediate `alignment * chunks_count + alignment` is `2^64` and wraps around to `0`
(the `- 1` then wraps back). -/
theorem need_alloc_step_wraps :
    0 < 1 ∧ 2 ^ 64 - 9 < SIZE_MOD 8 ∧ need_alloc_exact 8 (2 ^ 64 - 9) 1 < 2 ^ 64 ∧
    size_add 8 (size_mul 8 1 (2 ^ 64 - 1)) 1 = 0 ∧
    need_alloc 8 (2 ^ 64 - 9) 1 = some (2 ^ 64 - 1) ∧
    ¬ need_alloc_no_wrap 8 (2 ^ 64 - 9) 1 := by
  refine ⟨by decide, by decide, by decide, by decide, by decide, ?_⟩
  rw [need_alloc_no_wrap_iff 8 (2 ^ 64 - 9) 1 (by decide) (by decide)]
  decide

/-- C16, amended. With the arithmetic modulo `2^64`, `need_alloc(2^64 - 1, 1)` is `7`,
smaller than the size, and `aligned_malloc` requests those `7` bytes.  Conversely,
whenever the exact value `alignment * (ceil(size / alignment) +
ceil(sizeof(void *) / alignment)) + alignment - 1` is a `std::size_t`, the machine result
equals it; and no intermediate step wraps exactly when that value is below the largest
`std::size_t`. -/
theorem need_alloc_wrap_around (P size alignment : Nat) (ha : 0 < alignment)
    (haM : alignment < SIZE_MOD P) (hs : size < SIZE_MOD P)
    (hfit : need_alloc_exact P size alignment < SIZE_MOD P) :
    (need_alloc 8 (2 ^ 64 - 1) 1 = some 7 ∧ 7 < 2 ^ 64 - 1 ∧
      ∀ (malloc : State → Nat → Nat) (s : State), ∃ p s1,
        aligned_malloc 8 malloc s (2 ^ 64 - 1) 1 = some (p, s1) ∧
        s1.calls = s.calls ++ [Call.malloc 7]) ∧
    need_alloc P size alignment = some (need_alloc_exact P size alignment) ∧
    (need_alloc_no_wrap P size alignment ↔
      need_alloc_exact P size alignment + 1 < SIZE_MOD P) := by
  have h7 : need_alloc 8 (2 ^ 64 - 1) 1 = some 7 := by decide
  refine ⟨⟨h7, by decide, ?_⟩, need_alloc_eq_exact P size alignment ha haM hs hfit,
    need_alloc_no_wrap_iff P size alignment ha hs⟩
  intro malloc s
  by_cases h0 : malloc s 7 = 0
  · refine ⟨0, ⟨s.mem, s.calls ++ [Call.malloc 7]⟩, ?_, rfl⟩
    unfold aligned_malloc
    rw [h7]
    simp only [h0, if_true]
  · obtain ⟨shift, hsh⟩ := get_aligned_shift_isSome 8 (malloc s 7) 1 (by decide)
    exact ⟨_, _, aligned_malloc_of_shift 8 malloc s (2 ^ 64 - 1) 1 7 shift h7 h0 hsh, rfl⟩

/-- Witness of the amended C16: `sizeof(void *) = 8`, size `42`, alignment `13`. -/
theorem need_alloc_wrap_around_witness :
    0 < 13 ∧ 13 < SIZE_MOD 8 ∧ 42 < SIZE_MOD 8 ∧ need_alloc_exact 8 42 13 < SIZE_MOD 8 ∧
    ((need_alloc 8 (2 ^ 64 - 1) 1 = some 7 ∧ 7 < 2 ^ 64 - 1 ∧
      ∀ (malloc : State → Nat → Nat) (s : State), ∃ p s1,
        aligned_malloc 8 malloc s (2 ^ 64 - 1) 1 = some (p, s1) ∧
        s1.calls = s.calls ++ [Call.malloc 7]) ∧
    need_alloc 8 42 13 = some (need_alloc_exact 8 42 13) ∧
    (need_alloc_no_wrap 8 42 13 ↔ need_alloc_exact 8 42 13 + 1 < SIZE_MOD 8)) :=
  ⟨by decide, by decide, by decide, by decide,
    need_alloc_wrap_around 8 42 13 (by decide) (by decide) (by decide) (by decide)⟩

/-- A load depends only on the bytes it reads. -/
theorem load_bytes_congr (m1 m2 : Memory) (addr : Nat) :
    ∀ n, (∀ i, i < n → m1 (addr + i) = m2 (addr + i)) →
      load_bytes m1 addr n = load_bytes m2 addr n := by
  intro n
  induction n with
  | zero => intro _; rfl
  | succ k ih =>
    intro h
    rw [load_bytes, load_bytes, ih (fun i hi => h i (by omega)), h k (by omega)]

/-- Outside the slot it writes, `store_ptr` leaves the memory as it was. -/
theorem store_ptr_outside (P : Nat) (m : Memory) (addr value x : Nat)
    (hx : ¬ (addr ≤ x ∧ x < addr + P)) : store_ptr P m addr value x = m x := by
  unfold store_ptr
  rw [if_neg hx]

/-- C17, as stated, fails.  On the 64-bit platform, for size `2^64 - 1` and alignment
`1` the block requested has `7` bytes, while `align` on the raw address `4096` returns
`4104` and writes the slot `[4096, 4104)`, which ends after the block `[4096, 4103)`. -/
theorem align_slot_outside_block :
    0 < 1 ∧ 2 ^ 64 - 1 < SIZE_MOD 8 ∧ 4096 < SIZE_MOD 8 ∧
    need_alloc 8 (2 ^ 64 - 1) 1 = some 7 ∧
    (align 8 ⟨fun _ => 0, []⟩ 4096 1).map Prod.fst = some 4104 ∧
    ¬ (4104 ≤ 4096 + 7) := by
  decide

/-- C17, amended. Frame of `align`: `align(r, a)` changes memory only in the
`sizeof(void *)` bytes `[p - sizeof(void *), p)` below its result `p`; that slot is
disjoint from the user region `[p, p + size)`, so every address outside the slot keeps
its value, and after any writes confined to `[p, p + size)` `get_real(p)` still returns
`r`; and whenever `need_alloc(size, a)` does not wrap around, the slot lies inside the
block `[r, r + need_alloc(size, a))`. -/
theorem align_frame (P : Nat) (s : State) (size a r : Nat) (ha : 0 < a)
    (haM : a < SIZE_MOD P) (hr : r < SIZE_MOD P) :
    ∃ p s1, align P s r a = some (p, s1) ∧ P ≤ p ∧
      (∀ x, ¬ (p - P ≤ x ∧ x < p) → s1.mem x = s.mem x) ∧
      (∀ x, p - P ≤ x ∧ x < p → ¬ (p ≤ x ∧ x < p + size)) ∧
      (∀ m : Memory, (∀ x, ¬ (p ≤ x ∧ x < p + size) → m x = s1.mem x) →
        get_real P ⟨m, s1.calls⟩ p = some r) ∧
      (size < SIZE_MOD P → need_alloc_exact P size a < SIZE_MOD P →
        ∃ n, need_alloc P size a = some n ∧ r ≤ p - P ∧ p ≤ r + n) := by
  obtain ⟨shift, hsh⟩ := get_aligned_shift_isSome P r a ha
  have hpP := align_slot_no_underflow P r a shift ha haM hsh
  have hP := pos_of_lt_SIZE_MOD P a ha haM
  refine ⟨_, _, align_of_shift P s r a shift hsh, hpP, ?_, ?_, ?_, ?_⟩
  · intro x hx
    exact store_ptr_outside P s.mem _ r x (fun h => hx ⟨h.1, by omega⟩)
  · intro x hx
    omega
  · intro m hm
    unfold get_real
    rw [if_pos (by omega)]
    unfold load_ptr
    have hcongr := load_bytes_congr m (store_ptr P s.mem (r + shift - P) r)
      (r + shift - P) P (by
        intro i hi
        exact hm _ (by omega))
    rw [hcongr]
    exact congrArg some (load_ptr_store_ptr P s.mem (r + shift - P) r hr)
  · intro hs hfit
    have hsum := need_alloc_exact_eq P size a ha
    have hle := get_aligned_shift_exact_le P r a ha
    have hge := get_aligned_shift_exact_ge P r a ha
    rw [get_aligned_shift_eq_exact P r a ha haM (by omega)] at hsh
    injection hsh with hsh
    exact ⟨_, need_alloc_eq_exact P size a ha haM hs hfit, by omega, by omega⟩

/-- Witness of the amended C17: `sizeof(void *) = 8`, size `42`, alignment `13`, raw
address `4096`. -/
theorem align_frame_witness :
    0 < 13 ∧ 13 < SIZE_MOD 8 ∧ 4096 < SIZE_MOD 8 ∧
    ∃ p s1, align 8 ⟨fun _ => 0, []⟩ 4096 13 = some (p, s1) ∧ 8 ≤ p ∧
      (∀ x, ¬ (p - 8 ≤ x ∧ x < p) → s1.mem x = (fun _ => 0) x) ∧
      (∀ x, p - 8 ≤ x ∧ x < p → ¬ (p ≤ x ∧ x < p + 42)) ∧
      (∀ m : Memory, (∀ x, ¬ (p ≤ x ∧ x < p + 42) → m x = s1.mem x) →
        get_real 8 ⟨m, s1.calls⟩ p = some 4096) ∧
      (42 < SIZE_MOD 8 → need_alloc_exact 8 42 13 < SIZE_MOD 8 →
        ∃ n, need_alloc 8 42 13 = some n ∧ 4096 ≤ p - 8 ∧ p ≤ 4096 + n) :=
  ⟨by decide, by decide, by decide,
    align_frame 8 ⟨fun _ => 0, []⟩ 42 13 4096 (by decide) (by decide) (by decide)⟩

/-- C18. Bounded over-allocation: in exact arithmetic, that is whenever
`need_alloc(size, a)` does not wrap around, `need_alloc(size, a) - size` is at most
`sizeof(void *) + 3 * a - 3`; the bound is attained where `sizeof(void *) = 8`, `a = 7`,
`size = 1`, with `need_alloc = 27`. -/
theorem need_alloc_overhead (P size a : Nat) (ha : 0 < a) (haM : a < SIZE_MOD P)
    (hs : size < SIZE_MOD P) (hfit : need_alloc_exact P size a < SIZE_MOD P) :
    (∃ n, need_alloc P size a = some n ∧ size ≤ n ∧ n - size ≤ P + 3 * a - 3) ∧
    (need_alloc 8 1 7 = some 27 ∧ 27 - 1 = 8 + 3 * 7 - 3) := by
  have hsum := need_alloc_exact_eq P size a ha
  have hb1 := chunks_count_exact_bounds size a ha
  have hb2 := chunks_count_exact_bounds P a ha
  refine ⟨⟨_, need_alloc_eq_exact P size a ha haM hs hfit, by omega, by omega⟩, ?_⟩
  decide

/-- Witness of C18: `sizeof(void *) = 8`, size `1`, alignment `7`, where the bound is
attained. -/
theorem need_alloc_overhead_witness :
    0 < 7 ∧ 7 < SIZE_MOD 8 ∧ 1 < SIZE_MOD 8 ∧ need_alloc_exact 8 1 7 < SIZE_MOD 8 ∧
    ((∃ n, need_alloc 8 1 7 = some n ∧ 1 ≤ n ∧ n - 1 ≤ 8 + 3 * 7 - 3) ∧
    (need_alloc 8 1 7 = some 27 ∧ 27 - 1 = 8 + 3 * 7 - 3)) :=
  ⟨by decide, by decide, by decide, by decide,
    need_alloc_overhead 8 1 7 (by decide) (by decide) (by decide) (by decide)⟩

/-- C19, as stated, fails: on the 64-bit platform, for the alignment `2^64 - 1 ≥ 8` and
the raw address `2^64 - 2` the code returns the shift `0` (`1 + (2^64 - 1)` wraps
around), which is below `sizeof(void *)` and does not align the address. -/
theorem get_aligned_shift_wide_wraps :
    8 ≤ 2 ^ 64 - 1 ∧ 2 ^ 64 - 1 < SIZE_MOD 8 ∧ 2 ^ 64 - 2 < SIZE_MOD 8 ∧
    get_aligned_shift 8 (2 ^ 64 - 2) (2 ^ 64 - 1) = some 0 ∧ ¬ (8 ≤ 0) ∧
    ((2 ^ 64 - 2) + 0) % (2 ^ 64 - 1) ≠ 0 := by
  decide

/-- C19, amended. Minimality of the shift for wide alignments: for every alignment
`a ≥ sizeof(void *)` and raw address `r` for which the shift does not wrap around,
`get_aligned_shift(r, a)` is the least offset `s` with `s ≥ sizeof(void *)` and
`(r + s) mod a = 0`. -/
theorem get_aligned_shift_minimal_wide (P r a : Nat) (ha : 0 < a) (hPa : P ≤ a)
    (haM : a < SIZE_MOD P) (hfit : get_aligned_shift_exact P r a < SIZE_MOD P) :
    ∃ s, get_aligned_shift P r a = some s ∧ P ≤ s ∧ (r + s) % a = 0 ∧
      ∀ t, P ≤ t → (r + t) % a = 0 → s ≤ t := by
  have hal := has_exact_aligned r a ha
  have hP := pos_of_lt_SIZE_MOD P a ha haM
  refine ⟨_, get_aligned_shift_eq_exact P r a ha haM hfit,
    get_aligned_shift_exact_ge P r a ha, get_aligned_shift_exact_aligned P r a ha, ?_⟩
  intro t ht hta
  have hleast := has_exact_least r a t ha hta
  rw [get_aligned_shift_exact_eq]
  by_cases hb : has_exact r a < P
  · rw [if_pos hb]
    have hc : chunks_count_exact P a = 1 :=
      chunks_count_exact_eq P a 1 ha (by omega) (by omega)
    have hap := aligned_offsets_apart r a (has_exact r a) t hal hta (by omega)
    rw [hc, Nat.mul_one]
    exact hap
  · rw [if_neg hb]
    exact hleast

/-- Witness of the amended C19: `sizeof(void *) = 8`, the address `7`, the alignment
`9`. -/
theorem get_aligned_shift_minimal_wide_witness :
    0 < 9 ∧ 8 ≤ 9 ∧ 9 < SIZE_MOD 8 ∧ get_aligned_shift_exact 8 7 9 < SIZE_MOD 8 ∧
    ∃ s, get_aligned_shift 8 7 9 = some s ∧ 8 ≤ s ∧ (7 + s) % 9 = 0 ∧
      ∀ t, 8 ≤ t → (7 + t) % 9 = 0 → s ≤ t :=
  ⟨by decide, by decide, by decide, by decide,
    get_aligned_shift_minimal_wide 8 7 9 (by decide) (by decide) (by decide) (by decide)⟩

/-- C20. Non-minimal shift for narrow alignments: where `sizeof(void *) = 8`, for the
alignment `3` and every raw address `r` with `r mod 3 = 1` the shift is `11`, although
the offset `8` aligns `r` and is the least offset `≥ sizeof(void *)` that does; whereas
for every alignment `a` that divides `sizeof(void *)` the shift is the least offset
`s ≥ sizeof(void *)` with `(r + s) mod a = 0`. -/
theorem get_aligned_shift_narrow (P r a : Nat) (hP : 0 < P) (hdvd : a ∣ P) :
    (∀ r1, r1 % 3 = 1 → get_aligned_shift 8 r1 3 = some 11 ∧
      8 ≤ 8 ∧ (r1 + 8) % 3 = 0 ∧ (∀ t, 8 ≤ t → (r1 + t) % 3 = 0 → 8 ≤ t) ∧ 8 < 11) ∧
    (∃ s, get_aligned_shift P r a = some s ∧ P ≤ s ∧ (r + s) % a = 0 ∧
      ∀ t, P ≤ t → (r + t) % a = 0 → s ≤ t) := by
  constructor
  · intro r1 hr1
    have hh : has_exact r1 3 = 2 := by
      unfold has_exact
      rw [hr1]
      rfl
    have hc : chunks_count_exact 8 3 = 3 := by decide
    have hex : get_aligned_shift_exact 8 r1 3 = 11 := by
      rw [get_aligned_shift_exact_eq, hh, hc]
      rfl
    refine ⟨?_, Nat.le_refl 8, by omega, fun t ht _ => ht, by decide⟩
    rw [get_aligned_shift_eq_exact 8 r1 3 (by decide) (by decide) (by rw [hex]; decide),
      hex]
  · have ha : 0 < a := Nat.pos_of_dvd_of_pos hdvd hP
    have haP : a ≤ P := Nat.le_of_dvd hP hdvd
    have hPM := ptr_lt_SIZE_MOD P
    have h3 := three_mul_lt_SIZE_MOD P
    have hh := has_exact_lt r a ha
    have hal := has_exact_aligned r a ha
    have hmodP : P % a = 0 := Nat.mod_eq_zero_of_dvd hdvd
    have hdm := Nat.div_add_mod P a
    have hc : a * chunks_count_exact P a = P := by
      unfold chunks_count_exact
      rw [hmodP]
      simp only [ne_eq, not_true_eq_false, if_false, Nat.add_zero]
      omega
    have hex : get_aligned_shift_exact P r a = has_exact r a + P := by
      rw [get_aligned_shift_exact_eq, if_pos (by omega), hc]
    refine ⟨_, get_aligned_shift_eq_exact P r a ha (by omega) (by omega),
      get_aligned_shift_exact_ge P r a ha, get_aligned_shift_exact_aligned P r a ha, ?_⟩
    intro t ht hta
    have hback : (r + (t - P)) % a = 0 := by
      have hsplit : r + t = r + (t - P) + a * (P / a) := by omega
      rw [hsplit, Nat.add_mul_mod_self_left] at hta
      exact hta
    have hleast := has_exact_least r a (t - P) ha hback
    omega

/-- Witness of C20: `sizeof(void *) = 8`, the alignment `4`, which divides it, and the
raw address `6`. -/
theorem get_aligned_shift_narrow_witness :
    0 < 8 ∧ 4 ∣ 8 ∧
    ((∀ r1, r1 % 3 = 1 → get_aligned_shift 8 r1 3 = some 11 ∧
      8 ≤ 8 ∧ (r1 + 8) % 3 = 0 ∧ (∀ t, 8 ≤ t → (r1 + t) % 3 = 0 → 8 ≤ t) ∧ 8 < 11) ∧
    (∃ s, get_aligned_shift 8 6 4 = some s ∧ 8 ≤ s ∧ (6 + s) % 4 = 0 ∧
      ∀ t, 8 ≤ t → (6 + t) % 4 = 0 → s ≤ t)) :=
  ⟨by decide, by decide, get_aligned_shift_narrow 8 6 4 (by decide) (by decide)⟩

end aligned_memory
